import Mathlib

/-!
Verification of the circular-index resolver of np_rw_buffer.

The repository holds two C implementations of `get_indexes`:
`src/src/circular_indexes.c` (slice fast path plus wrapped index array) and
`src/np_rw_buffer/_circular_indexes.c` (always a tuple). Both are embedded
below as pure Lean functions over exact integers; a third model makes the
32-bit parsing arithmetic of the first implementation explicit.
-/

deriving instance DecidableEq for Except

namespace CircularIndexes

/-- Abnormal outcomes of the C functions: the explicit ValueError raised for a
negative length, the C division by zero (undefined behavior) reached when a
modulo by a zero maxsize executes, and the failure of PyTuple_New on a
negative size in the second implementation. -/
inductive CircErr where
  | invalidLength : CircErr
  | undefinedModZero : CircErr
  | negTupleSize : CircErr
deriving DecidableEq

/-- The two output forms of `get_indexes` in `src/src/circular_indexes.c`:
a Python slice object (RangeDescriptor) or a numpy index array (IndexSequence). -/
inductive IndexOutput where
  | range (lo hi step : Int) : IndexOutput
  | seq (xs : List Int) : IndexOutput
deriving DecidableEq

/-- Embedding of `get_indexes` from `src/src/circular_indexes.c` over exact
integers (its 32-bit parsing arithmetic is modelled separately by
`get_indexes32`). The C code raises ValueError when `length < 0`, computes
`end = start + length`, returns the slice `(start, end, 1)` when
`end <= maxsize` — with no prior reduction of `start` modulo `maxsize` — and
otherwise fills an array with `data[i] = (start + i) % maxsize` (C truncating
modulo, `Int.tmod`); when that loop body executes with `maxsize = 0` the
modulo is a division by zero, marked here as `undefinedModZero`. -/
def get_indexes (start length maxsize : Int) : Except CircErr IndexOutput :=
  if length < 0 then Except.error CircErr.invalidLength
  else if start + length ≤ maxsize then
    Except.ok (IndexOutput.range start (start + length) 1)
  else if maxsize = 0 ∧ 0 < length then Except.error CircErr.undefinedModZero
  else
    Except.ok (IndexOutput.seq ((List.range length.toNat).map
      (fun i : Nat => Int.tmod (start + (i : Int)) maxsize)))

/-- The ordered list of physical positions an output stands for: a slice
`(lo, hi, 1)` denotes `lo, lo + 1, ..., hi - 1` (empty when `hi ≤ lo`), and an
index array denotes its own elements in order. -/
def IndexOutput.denote : IndexOutput → List Int
  | IndexOutput.range lo hi _ => (List.range (hi - lo).toNat).map (fun i : Nat => lo + (i : Int))
  | IndexOutput.seq xs => xs

/-- Embedding of `get_indexes` from `src/np_rw_buffer/_circular_indexes.c`:
it always builds a tuple of `length` elements, element `i` being
`(start % maxsize) + i` (C truncating modulo, with `i` added outside the
modulo). PyTuple_New fails on a negative size, and a positive `length` with
`maxsize = 0` reaches a division by zero in the loop body. -/
def get_indexes_nprw (start length maxsize : Int) : Except CircErr (List Int) :=
  if length < 0 then Except.error CircErr.negTupleSize
  else if maxsize = 0 ∧ 0 < length then Except.error CircErr.undefinedModZero
  else
    Except.ok ((List.range length.toNat).map
      (fun i : Nat => Int.tmod start maxsize + (i : Int)))

/-- Reinterpretation of a non-negative Python integer parsed with format `I`
(unsigned int, converted without overflow checking) once it is stored in a C
`int` variable: the value is reduced modulo `2 ^ 32` and read as a signed
two-complement 32-bit integer. -/
def toSigned32 (n : Nat) : Int :=
  if n % 2 ^ 32 < 2 ^ 31 then ((n % 2 ^ 32 : Nat) : Int)
  else ((n % 2 ^ 32 : Nat) : Int) - 2 ^ 32

/-- Wrap-around of exact integer arithmetic to the 32-bit signed `int` result,
as produced by C `int` addition on common targets. -/
def wrap32 (z : Int) : Int := toSigned32 (z.emod (2 ^ 32)).toNat

/-- 32-bit-faithful embedding of `get_indexes` from
`src/src/circular_indexes.c`: the three Python arguments (non-negative
integers of any size) are parsed with `PyArg_ParseTupleAndKeywords` format
`III` into C `int` variables, so each is reduced modulo `2 ^ 32` and
reinterpreted as signed; `end = start + length` is C `int` addition, modelled
as wrapping; the rest follows `get_indexes`. -/
def get_indexes32 (start length maxsize : Nat) : Except CircErr IndexOutput :=
  let s := toSigned32 start
  let l := toSigned32 length
  let m := toSigned32 maxsize
  if l < 0 then Except.error CircErr.invalidLength
  else if wrap32 (s + l) ≤ m then
    Except.ok (IndexOutput.range s (wrap32 (s + l)) 1)
  else if m = 0 ∧ 0 < l then Except.error CircErr.undefinedModZero
  else
    Except.ok (IndexOutput.seq ((List.range l.toNat).map
      (fun i : Nat => Int.tmod (wrap32 (s + (i : Int))) m)))

/-- Bounds demanded by the spec of a successful output, relative to the
capacity: sequence elements in `[0, capacity)`, range bounds at most
`capacity` and the lower bound non-negative. -/
def outputBounded (c : Int) : IndexOutput → Bool
  | IndexOutput.range lo hi _ => decide (0 ≤ lo) && decide (lo ≤ c) && decide (hi ≤ c)
  | IndexOutput.seq xs => xs.all (fun x => decide (0 ≤ x) && decide (x < c))

/-- For a non-negative dividend and positive divisor, the remainder never
exceeds the dividend. -/
theorem emod_le_self_of_nonneg {s c : Int} (hs : 0 ≤ s) (hc : 0 < c) :
    s % c ≤ s := by
  have hd : 0 ≤ s / c := Int.ediv_nonneg hs (le_of_lt hc)
  have hm : 0 ≤ c * (s / c) := mul_nonneg (le_of_lt hc) hd
  have hdef := Int.emod_def s c
  linarith

/-- Branch lemma: when `start + length ≤ maxsize` the code returns the raw
slice. -/
theorem get_indexes_of_fit (s l c : Int) (hl : 0 ≤ l) (h : s + l ≤ c) :
    get_indexes s l c = Except.ok (IndexOutput.range s (s + l) 1) := by
  unfold get_indexes
  rw [if_neg (not_lt.mpr hl), if_pos h]

/-- Branch lemma: when `start + length > maxsize` and `maxsize ≠ 0` the code
returns the array of truncated remainders. -/
theorem get_indexes_of_wrap (s l c : Int) (hl : 0 ≤ l) (hc : c ≠ 0)
    (h : ¬ s + l ≤ c) :
    get_indexes s l c = Except.ok (IndexOutput.seq ((List.range l.toNat).map
      (fun i : Nat => Int.tmod (s + (i : Int)) c))) := by
  unfold get_indexes
  rw [if_neg (not_lt.mpr hl), if_neg h, if_neg (fun hh => hc hh.1)]

/-- C1 counterexample: at start 12, length 3, capacity 10 the reduced start is
2 and 2 + 3 ≤ 10, so the claim demands the slice (2, 5, 1); the code builds
the wrapped array [2, 3, 4] instead because it tests the unreduced
12 + 3 ≤ 10. -/
theorem C1_counterexample :
    (0 : Int) ≤ 12 ∧ (0 : Int) ≤ 3 ∧ (0 : Int) < 10 ∧
    Int.emod 12 10 + 3 ≤ 10 ∧
    get_indexes 12 3 10 = Except.ok (IndexOutput.seq [2, 3, 4]) ∧
    get_indexes 12 3 10 ≠
      Except.ok (IndexOutput.range (Int.emod 12 10) (Int.emod 12 10 + 3) 1) := by
  decide

/-- C1 (amended): the code performs no upfront reduction of start; it tests
the raw start + length ≤ capacity and on that path returns the slice
(start, start + length, 1); whenever that test fails it takes the sequence
path even if the reduced start would have fit. -/
theorem C1_contiguous_uses_raw_start (s l c : Int) (hs : 0 ≤ s) (hl : 0 ≤ l)
    (hc : 0 < c) (h : s + l ≤ c) :
    get_indexes s l c = Except.ok (IndexOutput.range s (s + l) 1) :=
  get_indexes_of_fit s l c hl h

/-- Witness for C1 (amended) at start 2, length 3, capacity 10. -/
theorem C1_contiguous_uses_raw_start_witness :
    get_indexes 2 3 10 = Except.ok (IndexOutput.range 2 5 1) :=
  (C1_contiguous_uses_raw_start 2 3 10 (by decide) (by decide) (by decide)
    (by decide)).trans (by decide)

/-- C2: whenever the reduced window wraps (start mod capacity plus length
exceeds capacity), the code returns an index array of exactly length
elements, element i being (start mod capacity + i) mod capacity. -/
theorem C2_wrap_sequence (s l c : Int) (hs : 0 ≤ s) (hl : 0 ≤ l) (hc : 0 < c)
    (hw : c < s % c + l) :
    get_indexes s l c =
      Except.ok (IndexOutput.seq ((List.range l.toNat).map
        (fun i : Nat => (s % c + (i : Int)) % c))) := by
  have hsc : s % c ≤ s := emod_le_self_of_nonneg hs hc
  have hno : ¬ s + l ≤ c := by linarith
  rw [get_indexes_of_wrap s l c hl (ne_of_gt hc) hno]
  refine congrArg (fun xs => Except.ok (IndexOutput.seq xs)) ?_
  refine List.map_congr_left ?_
  intro i hi
  have hnn : (0 : Int) ≤ s + (i : Int) := add_nonneg hs (Int.natCast_nonneg i)
  rw [Int.tmod_eq_emod hnn (le_of_lt hc), Int.emod_add_emod]

/-- Witness for C2: resolve(8, 5, 10) yields the sequence [8, 9, 0, 1, 2]. -/
theorem C2_wrap_sequence_witness :
    get_indexes 8 5 10 = Except.ok (IndexOutput.seq [8, 9, 0, 1, 2]) :=
  (C2_wrap_sequence 8 5 10 (by decide) (by decide) (by decide)
    (by decide)).trans (by decide)

/-- C3: for all valid inputs, the successful output — slice or array — denotes
exactly the sequence (start + i) mod capacity for i in [0, length). -/
theorem C3_denotes_modular_window (s l c : Int) (hs : 0 ≤ s) (hl : 0 ≤ l)
    (hc : 0 < c) :
    Except.map IndexOutput.denote (get_indexes s l c) =
      Except.ok ((List.range l.toNat).map (fun i : Nat => (s + (i : Int)) % c)) := by
  by_cases h : s + l ≤ c
  · rw [get_indexes_of_fit s l c hl h]
    simp only [Except.map, IndexOutput.denote]
    have he : s + l - s = l := by ring
    rw [he]
    refine congrArg Except.ok (List.map_congr_left ?_)
    intro i hi
    have hi2 : (i : Int) < l := by
      have := List.mem_range.mp hi
      omega
    exact (Int.emod_eq_of_lt (add_nonneg hs (Int.natCast_nonneg i))
      (by omega)).symm
  · rw [get_indexes_of_wrap s l c hl (ne_of_gt hc) h]
    simp only [Except.map, IndexOutput.denote]
    refine congrArg Except.ok (List.map_congr_left ?_)
    intro i hi
    exact Int.tmod_eq_emod (add_nonneg hs (Int.natCast_nonneg i)) (le_of_lt hc)

/-- Witness for C3 at start 8, length 5, capacity 10. -/
theorem C3_denotes_modular_window_witness :
    Except.map IndexOutput.denote (get_indexes 8 5 10) =
      Except.ok [8, 9, 0, 1, 2] :=
  (C3_denotes_modular_window 8 5 10 (by decide) (by decide)
    (by decide)).trans (by decide)

/-- C4: the code validates only the length. With capacity 0 it either
succeeds — start 0, length 0 yields the slice (0, 0, 1) — or reaches a C
division by zero (start 0, length 5); it never raises the InvalidArgument the
claim demands for capacity ≤ 0. The negative-length check does exist. -/
theorem C4_no_capacity_check :
    get_indexes 0 0 0 = Except.ok (IndexOutput.range 0 0 1) ∧
    get_indexes 0 5 0 = Except.error CircErr.undefinedModZero ∧
    get_indexes 0 (-1) 10 = Except.error CircErr.invalidLength := by
  decide

/-- C5 counterexample: at start 5, length 0, capacity 5 the code returns the
slice (5, 5, 1), whose begin equals the capacity and so lies outside
[0, capacity). -/
theorem C5_counterexample :
    (0 : Int) ≤ 5 ∧ (0 : Int) ≤ 0 ∧ (0 : Int) < 5 ∧
    get_indexes 5 0 5 = Except.ok (IndexOutput.range 5 5 1) ∧
    ¬ ((5 : Int) < 5) := by
  decide

/-- C5 (amended): every sequence element lies in [0, capacity); the range
begin is non-negative and at most capacity (it can equal capacity, in the
degenerate empty range), and the range end is at most capacity. -/
theorem C5_output_bounded (s l c : Int) (hs : 0 ≤ s) (hl : 0 ≤ l) (hc : 0 < c)
    (out : IndexOutput) (hout : get_indexes s l c = Except.ok out) :
    outputBounded c out = true := by
  by_cases h : s + l ≤ c
  · rw [get_indexes_of_fit s l c hl h] at hout
    injection hout with hout
    subst hout
    simp only [outputBounded, Bool.and_eq_true, decide_eq_true_eq]
    exact ⟨⟨hs, by linarith⟩, h⟩
  · rw [get_indexes_of_wrap s l c hl (ne_of_gt hc) h] at hout
    injection hout with hout
    subst hout
    simp only [outputBounded, List.all_eq_true, List.mem_map, List.mem_range,
      Bool.and_eq_true, decide_eq_true_eq]
    rintro x ⟨i, hi, rfl⟩
    exact ⟨Int.tmod_nonneg c (add_nonneg hs (Int.natCast_nonneg i)),
      Int.tmod_lt_of_pos _ hc⟩

/-- Witness for C5 (amended) on the wrapped output of resolve(8, 5, 10). -/
theorem C5_output_bounded_witness :
    outputBounded 10 (IndexOutput.seq [8, 9, 0, 1, 2]) = true :=
  C5_output_bounded 8 5 10 (by decide) (by decide) (by decide)
    (IndexOutput.seq [8, 9, 0, 1, 2]) (by decide)

/-- C6 counterexample: at start 7, length 0, capacity 5 the code returns an
empty index array, not the degenerate slice (2, 2, 1) the claim demands. -/
theorem C6_counterexample :
    get_indexes 7 0 5 = Except.ok (IndexOutput.seq []) ∧
    get_indexes 7 0 5 ≠
      Except.ok (IndexOutput.range (Int.emod 7 5) (Int.emod 7 5) 1) := by
  decide

/-- C6 (amended): with length 0 the code returns the degenerate slice
(start, start, 1) — without reducing start — when start ≤ capacity, and an
empty index array when start > capacity. -/
theorem C6_length_zero (s c : Int) (hs : 0 ≤ s) (hc : 0 < c) :
    get_indexes s 0 c =
      if s ≤ c then Except.ok (IndexOutput.range s s 1)
      else Except.ok (IndexOutput.seq []) := by
  by_cases h : s ≤ c
  · rw [if_pos h]
    have hfit := get_indexes_of_fit s 0 c le_rfl (by simpa using h)
    simpa using hfit
  · rw [if_neg h]
    have hw := get_indexes_of_wrap s 0 c le_rfl (ne_of_gt hc) (by simpa using h)
    simpa using hw

/-- Witness for C6 (amended): resolve(0, 0, 5) yields the slice (0, 0, 1). -/
theorem C6_length_zero_witness :
    get_indexes 0 0 5 = Except.ok (IndexOutput.range 0 0 1) :=
  (C6_length_zero 0 5 (by decide) (by decide)).trans (by decide)

/-- C7: the two implementations disagree on the wrapped window
(8, 5, 10): the slice-capable implementation denotes [8, 9, 0, 1, 2] while
the always-tuple implementation returns [8, 9, 10, 11, 12], which does not
wrap at the capacity. -/
theorem C7_implementations_disagree :
    Except.map IndexOutput.denote (get_indexes 8 5 10) =
      Except.ok [8, 9, 0, 1, 2] ∧
    get_indexes_nprw 8 5 10 = Except.ok [8, 9, 10, 11, 12] ∧
    ([8, 9, 0, 1, 2] : List Int) ≠ [8, 9, 10, 11, 12] := by
  decide

/-- C8: the resolver is deterministic — equal inputs give equal outputs. Its
embedding as a total function of exactly the three arguments reflects that
the C function reads no state beyond its parameters and locals. -/
theorem C8_deterministic (s₁ l₁ c₁ s₂ l₂ c₂ : Int)
    (hs : s₁ = s₂) (hl : l₁ = l₂) (hc : c₁ = c₂) :
    get_indexes s₁ l₁ c₁ = get_indexes s₂ l₂ c₂ := by
  rw [hs, hl, hc]

/-- Witness for C8 at the input (8, 5, 10) given twice. -/
theorem C8_deterministic_witness :
    get_indexes 8 5 10 = get_indexes 8 5 10 :=
  C8_deterministic 8 5 10 8 5 10 rfl rfl rfl

/-- C9: the always-tuple implementation returns, for every non-negative
length and nonzero maxsize, a tuple of exactly length elements with element i
equal to (start tmod maxsize) + i — the index added outside the modulo — and
every element at offset i ≥ maxsize - (start tmod maxsize) is ≥ maxsize. -/
theorem C9_nprw_adds_outside_modulo (s l m : Int) (hl : 0 ≤ l) (hm : m ≠ 0) :
    get_indexes_nprw s l m = Except.ok ((List.range l.toNat).map
      (fun i : Nat => Int.tmod s m + (i : Int))) ∧
    ((List.range l.toNat).map
      (fun i : Nat => Int.tmod s m + (i : Int))).length = l.toNat ∧
    (∀ i : Int, m - Int.tmod s m ≤ i → m ≤ Int.tmod s m + i) := by
  refine ⟨?_, by simp, fun i hi => by linarith⟩
  unfold get_indexes_nprw
  rw [if_neg (not_lt.mpr hl), if_neg (fun hh => hm hh.1)]

/-- Witness for C9 at start 8, length 5, maxsize 10. -/
theorem C9_nprw_adds_outside_modulo_witness :
    get_indexes_nprw 8 5 10 = Except.ok [8, 9, 10, 11, 12] :=
  ((C9_nprw_adds_outside_modulo 8 5 10 (by decide) (by decide)).1).trans
    (by decide)

/-- toSigned32 depends only on its argument modulo 2 ^ 32. -/
theorem toSigned32_period (n : Nat) : toSigned32 (n + 2 ^ 32) = toSigned32 n := by
  unfold toSigned32
  rw [Nat.add_mod_right]

/-- C10: the arguments are taken modulo 2 ^ 32 and reinterpreted as signed,
and end = start + length is wrapping 32-bit addition: adding 2 ^ 32 to any
argument leaves the result unchanged, and at start 2 ^ 31 - 1, length 1,
capacity 10 the wrapped end is -2 ^ 31 ≤ 10, so the 32-bit code takes the
slice path (returning the empty slice (2147483647, -2147483648, 1)) even
though the exact end 2 ^ 31 exceeds the capacity and the exact-arithmetic
model returns the wrapped sequence [7]. -/
theorem C10_32bit_wrapping (s l m : Nat) :
    get_indexes32 (s + 2 ^ 32) l m = get_indexes32 s l m ∧
    get_indexes32 s (l + 2 ^ 32) m = get_indexes32 s l m ∧
    get_indexes32 s l (m + 2 ^ 32) = get_indexes32 s l m ∧
    get_indexes32 (2 ^ 31 - 1) 1 10 =
      Except.ok (IndexOutput.range (2 ^ 31 - 1) (-2 ^ 31) 1) ∧
    ¬ ((2 ^ 31 - 1 : Int) + 1 ≤ 10) ∧
    get_indexes (2 ^ 31 - 1) 1 10 = Except.ok (IndexOutput.seq [7]) := by
  refine ⟨?_, ?_, ?_, by decide, by decide, by decide⟩
  · unfold get_indexes32
    rw [toSigned32_period]
  · unfold get_indexes32
    rw [toSigned32_period]
  · unfold get_indexes32
    rw [toSigned32_period]

end CircularIndexes
